import Mathlib

/-!
# Verification of the credential-handling core of the SaaS Landing backend

This development shallowly embeds the credential service of `main.py`
(`hash_password`, `verify_password`) and the signup/login route handlers,
together with the document-store interface they consume, and proves the
specified properties about them.

Strings are modelled as `List Char`; bytes as `Nat` below 256.  The
`hashlib.sha256(...).hexdigest()` call is embedded as a full executable
SHA-256 (FIPS 180-4) over UTF-8 encoded bytes.  Randomness
(`secrets.token_hex(16)`, `secrets.token_urlsafe(24)`) and the current time
(`datetime.utcnow()`) are passed in as explicit parameters.
-/

/-- Python `s.split(sep)` for a single-character separator: splits on every
occurrence, keeping empty pieces; `"".split(sep) = [""]`. -/
def pySplit (sep : Char) : List Char → List (List Char)
  | [] => [[]]
  | c :: rest =>
    match pySplit sep rest with
    | [] => [[]]
    | h :: t => if c = sep then [] :: h :: t else (c :: h) :: t

/-- UTF-8 encoding of a single scalar value, as in Python `str.encode("utf-8")`. -/
def utf8EncodeChar (c : Char) : List Nat :=
  let n := c.toNat
  if n < 128 then [n]
  else if n < 2048 then [192 + n / 64, 128 + n % 64]
  else if n < 65536 then [224 + n / 4096, 128 + n / 64 % 64, 128 + n % 64]
  else [240 + n / 262144, 128 + n / 4096 % 64, 128 + n / 64 % 64, 128 + n % 64]

/-- UTF-8 encoding of a string, as in Python `str.encode("utf-8")`. -/
def utf8Encode (s : List Char) : List Nat :=
  (s.map utf8EncodeChar).flatten

/-! ## SHA-256 (FIPS 180-4), the digest behind `hashlib.sha256` -/

/-- Right rotation of a 32-bit word. -/
def rotr32 (n x : Nat) : Nat := ((x >>> n) ||| (x <<< (32 - n))) % 4294967296

/-- The SHA-256 round constants (the 64 cube-root words of FIPS 180-4, written
in decimal). -/
def K256 : List Nat :=
  [1116352408, 1899447441, 3049323471, 3921009573, 961987163, 1508970993, 2453635748,
   2870763221, 3624381080, 310598401, 607225278, 1426881987, 1925078388, 2162078206,
   2614888103, 3248222580, 3835390401, 4022224774, 264347078, 604807628, 770255983,
   1249150122, 1555081692, 1996064986, 2554220882, 2821834349, 2952996808, 3210313671,
   3336571891, 3584528711, 113926993, 338241895, 666307205, 773529912, 1294757372,
   1396182291, 1695183700, 1986661051, 2177026350, 2456956037, 2730485921, 2820302411,
   3259730800, 3345764771, 3516065817, 3600352804, 4094571909, 275423344, 430227734,
   506948616, 659060556, 883997877, 958139571, 1322822218, 1537002063, 1747873779,
   1955562222, 2024104815, 2227730452, 2361852424, 2428436474, 2756734187, 3204031479,
   3329325298]

/-- The eight 32-bit words of SHA-256 working state. -/
structure Hash8 where
  a : Nat
  b : Nat
  c : Nat
  d : Nat
  e : Nat
  f : Nat
  g : Nat
  h : Nat
deriving DecidableEq

/-- The SHA-256 initial hash value (the eight square-root words of FIPS 180-4,
written in decimal). -/
def H256 : Hash8 :=
  ⟨1779033703, 3144134277, 1013904242, 2773480762, 1359893119, 2600822924,
   528734635, 1541459225⟩

/-- SHA-256 message padding: append `0x80`, zeros, and the 64-bit big-endian
bit length, so the total length is a multiple of 64 bytes. -/
def sha256Pad (msg : List Nat) : List Nat :=
  let len := msg.length
  let lenBits := 8 * len
  let k := (119 - len % 64) % 64
  msg ++ [128] ++ List.replicate k 0 ++
    [lenBits >>> 56 % 256, lenBits >>> 48 % 256, lenBits >>> 40 % 256, lenBits >>> 32 % 256,
     lenBits >>> 24 % 256, lenBits >>> 16 % 256, lenBits >>> 8 % 256, lenBits % 256]

/-- Split a byte list into 64-byte chunks. -/
def chunks64 (l : List Nat) : List (List Nat) :=
  if h : l = [] then [] else l.take 64 :: chunks64 (l.drop 64)
termination_by l.length
decreasing_by
  simp only [List.length_drop]
  have : 0 < l.length := List.length_pos.mpr h
  omega

/-- Big-endian assembly of 4-byte groups into 32-bit words. -/
def bytesToWords : List Nat → List Nat
  | b0 :: b1 :: b2 :: b3 :: rest => (((b0 * 256 + b1) * 256 + b2) * 256 + b3) :: bytesToWords rest
  | _ => []

/-- One extension step of the SHA-256 message schedule. -/
def stepW (acc : List Nat) : List Nat :=
  let i := acc.length
  let s0 := rotr32 7 (acc.getD (i - 15) 0) ^^^ rotr32 18 (acc.getD (i - 15) 0) ^^^
            (acc.getD (i - 15) 0 >>> 3)
  let s1 := rotr32 17 (acc.getD (i - 2) 0) ^^^ rotr32 19 (acc.getD (i - 2) 0) ^^^
            (acc.getD (i - 2) 0 >>> 10)
  acc ++ [(acc.getD (i - 16) 0 + s0 + acc.getD (i - 7) 0 + s1) % 4294967296]

/-- The full 64-entry SHA-256 message schedule from the 16 chunk words. -/
def fullW (w : List Nat) : List Nat :=
  (List.range 48).foldl (fun acc _ => stepW acc) w

/-- One SHA-256 compression round. -/
def compressStep (st : Hash8) (kw : Nat × Nat) : Hash8 :=
  let S1 := rotr32 6 st.e ^^^ rotr32 11 st.e ^^^ rotr32 25 st.e
  let ch := (st.e &&& st.f) ^^^ ((st.e ^^^ 4294967295) &&& st.g)
  let t1 := (st.h + S1 + ch + kw.1 + kw.2) % 4294967296
  let S0 := rotr32 2 st.a ^^^ rotr32 13 st.a ^^^ rotr32 22 st.a
  let mj := (st.a &&& st.b) ^^^ (st.a &&& st.c) ^^^ (st.b &&& st.c)
  let t2 := (S0 + mj) % 4294967296
  ⟨(t1 + t2) % 4294967296, st.a, st.b, st.c, (st.d + t1) % 4294967296, st.e, st.f, st.g⟩

/-- Process one 64-byte chunk: compress and add into the running hash. -/
def processChunk (H : Hash8) (chunk : List Nat) : Hash8 :=
  let w := fullW (bytesToWords chunk)
  let s := (K256.zip w).foldl compressStep H
  ⟨(H.a + s.a) % 4294967296, (H.b + s.b) % 4294967296, (H.c + s.c) % 4294967296,
   (H.d + s.d) % 4294967296, (H.e + s.e) % 4294967296, (H.f + s.f) % 4294967296,
   (H.g + s.g) % 4294967296, (H.h + s.h) % 4294967296⟩

/-- Big-endian byte serialization of a 32-bit word. -/
def wordToBytes (w : Nat) : List Nat :=
  [w >>> 24 % 256, w >>> 16 % 256, w >>> 8 % 256, w % 256]

/-- The 32 digest bytes of a final hash state. -/
def digestBytes (H : Hash8) : List Nat :=
  wordToBytes H.a ++ wordToBytes H.b ++ wordToBytes H.c ++ wordToBytes H.d ++
  wordToBytes H.e ++ wordToBytes H.f ++ wordToBytes H.g ++ wordToBytes H.h

/-- SHA-256 of a byte string, as 32 digest bytes. -/
def sha256Bytes (msg : List Nat) : List Nat :=
  digestBytes ((chunks64 (sha256Pad msg)).foldl processChunk H256)

/-- The lowercase hex alphabet used by `hexdigest`. -/
def hexDigits : List Char := "0123456789abcdef".toList

/-- The two lowercase hex characters of one byte. -/
def byteToHexChars (b : Nat) : List Char :=
  [hexDigits.getD (b / 16 % 16) '0', hexDigits.getD (b % 16) '0']

/-- `hashlib.sha256(utf8(s)).hexdigest()` as a string function. -/
def sha256HexOfString (s : List Char) : List Char :=
  ((sha256Bytes (utf8Encode s)).map byteToHexChars).flatten

/-! ## The credential service (`main.py`, lines 28-39) -/

/-- `hash_password(password, salt=None)` from `main.py`: `salt or
secrets.token_hex(16)` keeps a truthy (non-empty) explicit salt and otherwise
draws a fresh random hex salt, here passed in as `rnd`; the result is
`f"{salt}${hashed}"` with `hashed = sha256((salt+password).encode()).hexdigest()`. -/
def hash_password (password : List Char) (salt : Option (List Char)) (rnd : List Char) :
    List Char :=
  let s := match salt with
    | none => rnd
    | some s0 => if s0 = [] then rnd else s0
  s ++ '$' :: sha256HexOfString (s ++ password)

/-- `verify_password(password, stored)` from `main.py`: split `stored` on `'$'`;
unpacking into exactly two parts fails with `ValueError` (caught, returning
`False`) unless the split has exactly two pieces; otherwise recompute the digest
over `salt + password` and compare with the stored digest. -/
def verify_password (password stored : List Char) : Bool :=
  match pySplit '$' stored with
  | [salt, digest] => sha256HexOfString (salt ++ password) == digest
  | _ => false

/-- A possible output of `secrets.token_hex(16)`: 32 lowercase hex characters. -/
def isTokenHex (r : List Char) : Prop :=
  r.length = 32 ∧ ∀ c ∈ r, c ∈ hexDigits

instance (r : List Char) : Decidable (isTokenHex r) := by
  unfold isTokenHex
  infer_instance

/-! ## The document store and route handlers (`main.py`, lines 121-153)

The `database` module (`create_document`, `get_documents`) is imported by
`main.py` but its source is not part of this repository snapshot, so it is
modelled from the spec's Document Collaborator interface (section 6). -/

/-- A document field value: the user documents built by signup hold strings,
a boolean and a timestamp. -/
inductive Value where
  | str (s : List Char)
  | bool (b : Bool)
  | nat (n : Nat)
deriving DecidableEq

/-- A document: a Python dict in insertion order. -/
abbrev Doc : Type := List (String × Value)

/-- The document store: named collections of documents, plus a counter for
generated identifiers. -/
structure DB where
  colls : String → List Doc
  nextId : Nat

/-- Modelled from the spec: `get_documents(collection_name, filter, limit)` of
the missing `database` module returns up to `limit` records of the named
collection matching an equality filter, in insertion order. -/
def get_documents (db : DB) (coll : String) (filt : List (String × Value)) (limit : Nat) :
    List Doc :=
  ((db.colls coll).filter fun d => filt.all fun kv => decide (List.lookup kv.1 d = some kv.2)).take
    limit

/-- Modelled from the spec: `create_document(collection_name, record)` of the
missing `database` module inserts a record into a named collection and returns
a unique generated identifier; the stored record is a snapshot, so later caller
mutations of the dict do not reach the store. -/
def create_document (db : DB) (coll : String) (doc : Doc) : Value × DB :=
  (Value.nat db.nextId,
   ⟨fun c => if c = coll then db.colls c ++ [doc] else db.colls c, db.nextId + 1⟩)

/-- Outcome of an auth route: an `HTTPException` with status and detail, or a
response carrying the user record and the opaque token. -/
inductive AuthResult where
  | error (status : Nat) (detail : String)
  | ok (user : Doc) (token : List Char)
deriving DecidableEq

/-- `POST /api/auth/signup` from `main.py`: reject a duplicate email with 400,
otherwise hash the password (salt randomness `rnd`), persist the user document
with `is_active=True` and the current timestamp `now`, and return it with the
generated `_id` added and `password_hash` popped, plus the token. -/
def signup (db : DB) (name email password rnd token : List Char) (now : Nat) :
    AuthResult × DB :=
  let existing := get_documents db "user" [("email", Value.str email)] 1
  if existing ≠ [] then (.error 400 "Email already registered", db)
  else
    let pwd_hash := hash_password password none rnd
    let user_doc : Doc :=
      [("name", Value.str name), ("email", Value.str email),
       ("password_hash", Value.str pwd_hash), ("is_active", Value.bool true),
       ("created_at", Value.nat now)]
    let idDb := create_document db "user" user_doc
    let ret_doc := (user_doc ++ [("_id", idDb.1)]).filter fun kv => kv.1 != "password_hash"
    (.ok ret_doc token, idDb.2)

/-- Python `user.get("password_hash", "")`: the stored string, or the default
when the key is absent (or holds a non-string value, which signup never writes). -/
def getStrD (d : Doc) (k : String) (dflt : List Char) : List Char :=
  match List.lookup k d with
  | some (Value.str s) => s
  | _ => dflt

/-- `POST /api/auth/login` from `main.py`: look up the user by email; fail with
401 "Invalid credentials" when absent, verify the password against the stored
credential, fail with the identical 401 on mismatch, else return the record
with `password_hash` filtered out, plus a fresh token. -/
def login (db : DB) (email password token : List Char) : AuthResult :=
  let users := get_documents db "user" [("email", Value.str email)] 1
  match users with
  | [] => .error 401 "Invalid credentials"
  | user :: _ =>
    if verify_password password (getStrD user "password_hash" []) then
      .ok (user.filter fun kv => kv.1 != "password_hash") token
    else .error 401 "Invalid credentials"

/-- The user record of a response, when the result is a success. -/
def respUser : AuthResult → Option Doc
  | .ok u _ => some u
  | .error _ _ => none

/-! ## Supporting lemmas -/

/-- Splitting a separator-free string yields the single piece. -/
lemma pySplit_no_sep (sep : Char) (s : List Char) (h : sep ∉ s) : pySplit sep s = [s] := by
  induction s with
  | nil => rfl
  | cons c rest ih =>
    have hc : c ≠ sep := by
      rintro rfl
      exact h (List.mem_cons_self _ _)
    have hrest : sep ∉ rest := fun hm => h (List.mem_cons_of_mem _ hm)
    simp only [pySplit, ih hrest]
    simp [hc]

/-- Splitting `a ++ sep :: b` with separator-free `a` and `b` recovers the two
pieces. -/
lemma pySplit_sep_append (sep : Char) (a b : List Char) (ha : sep ∉ a) (hb : sep ∉ b) :
    pySplit sep (a ++ sep :: b) = [a, b] := by
  induction a with
  | nil =>
    simp only [List.nil_append, pySplit, pySplit_no_sep sep b hb]
    simp
  | cons c a' ih =>
    have hc : c ≠ sep := by
      rintro rfl
      exact ha (List.mem_cons_self _ _)
    have ha' : sep ∉ a' := fun hm => ha (List.mem_cons_of_mem _ hm)
    simp only [List.cons_append, pySplit, List.append_eq]
    rw [ih ha']
    simp [hc]

/-- The number of split pieces is one more than the separator count. -/
lemma pySplit_length (sep : Char) (s : List Char) :
    (pySplit sep s).length = s.count sep + 1 := by
  induction s with
  | nil => simp [pySplit]
  | cons c rest ih =>
    simp only [pySplit]
    cases hps : pySplit sep rest with
    | nil => rw [hps] at ih; simp at ih
    | cons hd tl =>
      rw [hps] at ih
      by_cases hc : c = sep
      · subst hc
        simp only [if_pos rfl, List.length_cons] at *
        simp [List.count_cons]
        omega
      · simp only [if_neg hc, List.length_cons] at *
        simp [List.count_cons, Ne.symm hc]
        omega

/-- Any index into the hex alphabet lands in the hex alphabet. -/
lemma getD_hexDigits_mem (i : Nat) : hexDigits.getD i '0' ∈ hexDigits := by
  have hlen : hexDigits.length = 16 := by decide
  rcases Nat.lt_or_ge i 16 with h | h
  · interval_cases i <;> decide
  · rw [List.getD_eq_default]
    · decide
    · omega

/-- Every character emitted by `hexdigest` is a lowercase hex digit. -/
lemma mem_sha256Hex {c : Char} {s : List Char} (h : c ∈ sha256HexOfString s) :
    c ∈ hexDigits := by
  unfold sha256HexOfString at h
  rw [List.mem_flatten] at h
  obtain ⟨l, hl, hc⟩ := h
  rw [List.mem_map] at hl
  obtain ⟨b, _, rfl⟩ := hl
  simp only [byteToHexChars, List.mem_cons, List.mem_singleton] at hc
  rcases hc with rfl | rfl | hc
  · exact getD_hexDigits_mem _
  · exact getD_hexDigits_mem _
  · exact absurd hc (List.not_mem_nil c)

/-- The delimiter `'$'` never occurs in a hex digest. -/
lemma dollar_not_mem_sha256Hex (s : List Char) : '$' ∉ sha256HexOfString s := by
  intro h
  have := mem_sha256Hex h
  revert this
  decide

/-- The delimiter `'$'` never occurs in a string of hex digits. -/
lemma dollar_not_mem_of_hex {r : List Char} (h : ∀ c ∈ r, c ∈ hexDigits) : '$' ∉ r := by
  intro hm
  have := h _ hm
  revert this
  decide

/-- Looking up a key in a dict filtered on that very key finds nothing. -/
lemma lookup_filter_ne (k : String) (l : Doc) :
    List.lookup k (l.filter fun kv => kv.1 != k) = none := by
  induction l with
  | nil => rfl
  | cons kv rest ih =>
    rcases kv with ⟨k', v⟩
    by_cases h : k' = k
    · subst h
      simpa [List.filter_cons] using ih
    · have hne : (k' != k) = true := bne_iff_ne.mpr h
      have hne' : (k == k') = false := beq_eq_false_iff_ne.mpr (Ne.symm h)
      simp [List.filter_cons, hne, List.lookup, hne', ih]

/-- With no explicit salt, `hash_password` embeds the random draw. -/
lemma hash_password_none (p rnd : List Char) :
    hash_password p none rnd = rnd ++ '$' :: sha256HexOfString (rnd ++ p) := rfl

/-- A truthy (non-empty) explicit salt is kept verbatim. -/
lemma hash_password_some (p s rnd : List Char) (hs : s ≠ []) :
    hash_password p (some s) rnd = s ++ '$' :: sha256HexOfString (s ++ p) := by
  unfold hash_password
  simp [hs]

/-- The falsy empty salt is replaced by the random draw, exactly as `salt=None`. -/
lemma hash_password_empty_salt (p rnd : List Char) :
    hash_password p (some []) rnd = hash_password p none rnd := rfl

/-- On a well-formed credential, `verify_password` reduces to a digest
comparison. -/
lemma verify_password_eq (p salt digest : List Char) (hsalt : '$' ∉ salt)
    (hdig : '$' ∉ digest) :
    verify_password p (salt ++ '$' :: digest) =
      (sha256HexOfString (salt ++ p) == digest) := by
  unfold verify_password
  rw [pySplit_sep_append '$' salt digest hsalt hdig]

/-- Round trip for any delimiter-free salt: hashing then verifying succeeds. -/
lemma verify_hash_round_trip_aux (p rnd : List Char) (hr : '$' ∉ rnd) :
    verify_password p (hash_password p none rnd) = true := by
  rw [hash_password_none,
    verify_password_eq p rnd _ hr (dollar_not_mem_sha256Hex (rnd ++ p))]
  exact beq_self_eq_true _

/-- Distinct delimiter-free salts give distinct credential strings. -/
lemma hash_password_ne_of_salt_ne (p r1 r2 : List Char) (h1 : '$' ∉ r1)
    (h2 : '$' ∉ r2) (hne : r1 ≠ r2) :
    hash_password p none r1 ≠ hash_password p none r2 := by
  intro he
  rw [hash_password_none, hash_password_none] at he
  have := congrArg (pySplit '$') he
  rw [pySplit_sep_append '$' r1 _ h1 (dollar_not_mem_sha256Hex (r1 ++ p)),
    pySplit_sep_append '$' r2 _ h2 (dollar_not_mem_sha256Hex (r2 ++ p))] at this
  exact hne (by injection this)

/-- C1: for every password `p` and every salt actually drawn by the
salt-generating path of `hash_password` (a random hex string),
`verify_password p (hash_password p)` is true: the split on `'$'` recovers the
salt and digest, and the recomputed SHA-256 digest of salt ++ password equals
the stored digest. -/
theorem verify_of_hash_round_trip (p rnd : List Char) (h : isTokenHex rnd) :
    verify_password p (hash_password p none rnd) = true :=
  verify_hash_round_trip_aux p rnd (dollar_not_mem_of_hex h.2)

/-- Witness for C1 at a concrete password and salt. -/
theorem verify_of_hash_round_trip_witness :
    verify_password ['a'] (hash_password ['a'] none (List.replicate 32 '0')) = true :=
  verify_of_hash_round_trip ['a'] (List.replicate 32 '0') (by decide)

/-- A stored credential whose split is not exactly two parts verifies false. -/
lemma verify_not_two_parts_aux (p s : List Char) (h : (pySplit '$' s).length ≠ 2) :
    verify_password p s = false := by
  cases hps : pySplit '$' s with
  | nil => simp [verify_password, hps]
  | cons a t =>
    cases t with
    | nil => simp [verify_password, hps]
    | cons b t2 =>
      cases t2 with
      | nil =>
        rw [hps] at h
        simp at h
      | cons c t3 => simp [verify_password, hps]

/-- C2: whenever splitting the stored credential on `'$'` does not yield
exactly two parts (empty string, no `'$'`, or several `'$'`), `verify_password`
returns false — totally, never raising. -/
theorem verify_malformed_false (p s : List Char) (h : (pySplit '$' s).length ≠ 2) :
    verify_password p s = false :=
  verify_not_two_parts_aux p s h

/-- Witness for C2 at the empty stored credential. -/
theorem verify_malformed_false_witness : verify_password ['a'] [] = false :=
  verify_malformed_false ['a'] [] (by decide)

/-- C7: two hashing calls that draw distinct random salts produce distinct
credential strings, yet each verifies true against the password. -/
theorem hash_password_salt_randomness (p r1 r2 : List Char) (h1 : isTokenHex r1)
    (h2 : isTokenHex r2) (hne : r1 ≠ r2) :
    hash_password p none r1 ≠ hash_password p none r2 ∧
    verify_password p (hash_password p none r1) = true ∧
    verify_password p (hash_password p none r2) = true :=
  ⟨hash_password_ne_of_salt_ne p r1 r2 (dollar_not_mem_of_hex h1.2)
      (dollar_not_mem_of_hex h2.2) hne,
   verify_hash_round_trip_aux p r1 (dollar_not_mem_of_hex h1.2),
   verify_hash_round_trip_aux p r2 (dollar_not_mem_of_hex h2.2)⟩

/-- Witness for C7 at two concrete distinct salts. -/
theorem hash_password_salt_randomness_witness :
    hash_password ['a'] none (List.replicate 32 '0') ≠
      hash_password ['a'] none (List.replicate 32 '1') ∧
    verify_password ['a'] (hash_password ['a'] none (List.replicate 32 '0')) = true ∧
    verify_password ['a'] (hash_password ['a'] none (List.replicate 32 '1')) = true :=
  hash_password_salt_randomness ['a'] (List.replicate 32 '0') (List.replicate 32 '1')
    (by decide) (by decide) (by decide)

/-- C9: an explicitly supplied salt containing the `'$'` delimiter breaks the
round trip: the derived string then splits into more than two parts, so
verification returns false. -/
theorem verify_dollar_salt_false (p salt rnd : List Char) (h : '$' ∈ salt) :
    verify_password p (hash_password p (some salt) rnd) = false := by
  have hne : salt ≠ [] := by
    rintro rfl
    exact absurd h (List.not_mem_nil _)
  rw [hash_password_some p salt rnd hne]
  apply verify_not_two_parts_aux
  rw [pySplit_length]
  have h1 : salt.count '$' ≠ 0 := fun h0 => absurd h (List.count_eq_zero.mp h0)
  have h2 : (sha256HexOfString (salt ++ p)).count '$' = 0 :=
    List.count_eq_zero.mpr (dollar_not_mem_sha256Hex (salt ++ p))
  simp [List.count_append, List.count_cons, h2]
  omega

/-- Witness for C9 at the salt consisting of a single `'$'`. -/
theorem verify_dollar_salt_false_witness :
    verify_password ['a'] (hash_password ['a'] (some ['$']) []) = false :=
  verify_dollar_salt_false ['a'] ['$'] [] (by decide)

/-- C10: the empty explicit salt is falsy in `salt or secrets.token_hex(16)`,
so a fresh random hex salt is substituted and the salt component of the output
is never empty. -/
theorem hash_password_empty_salt_replaced (p rnd : List Char) (h : isTokenHex rnd) :
    hash_password p (some []) rnd = hash_password p none rnd ∧
    (pySplit '$' (hash_password p (some []) rnd)).headD [] = rnd ∧ rnd ≠ [] := by
  refine ⟨rfl, ?_, ?_⟩
  · rw [hash_password_empty_salt, hash_password_none,
      pySplit_sep_append '$' rnd _ (dollar_not_mem_of_hex h.2)
        (dollar_not_mem_sha256Hex (rnd ++ p))]
    rfl
  · intro he
    rw [he] at h
    simp [isTokenHex] at h

/-- Witness for C10 at a concrete password and random draw. -/
theorem hash_password_empty_salt_replaced_witness :
    hash_password ['a'] (some []) (List.replicate 32 '0') =
      hash_password ['a'] none (List.replicate 32 '0') ∧
    (pySplit '$' (hash_password ['a'] (some []) (List.replicate 32 '0'))).headD [] =
      List.replicate 32 '0' ∧
    List.replicate 32 '0' ≠ ([] : List Char) :=
  hash_password_empty_salt_replaced ['a'] (List.replicate 32 '0') (by decide)

/-- C3: the two login failure causes are indistinguishable: an unknown email
and a wrong password both yield status 401 with the identical detail
"Invalid credentials". -/
theorem login_failure_indistinguishable (db : DB) (email password token : List Char)
    (h : get_documents db "user" [("email", Value.str email)] 1 = [] ∨
      ∃ u rest, get_documents db "user" [("email", Value.str email)] 1 = u :: rest ∧
        verify_password password (getStrD u "password_hash" []) = false) :
    login db email password token = .error 401 "Invalid credentials" := by
  unfold login
  rcases h with h | ⟨u, rest, h, hv⟩
  · rw [h]
  · rw [h]
    simp [hv]

/-- Witness for C3 on the empty store, where the email is unknown. -/
theorem login_failure_indistinguishable_witness :
    login ⟨fun _ => [], 0⟩ ['a'] ['b'] ['t'] = .error 401 "Invalid credentials" :=
  login_failure_indistinguishable ⟨fun _ => [], 0⟩ ['a'] ['b'] ['t'] (Or.inl rfl)

/-- C4: no response of a successful signup or login carries a
`password_hash` key: signup pops the key before returning, login filters it
out of the stored record. -/
theorem no_password_hash_in_responses (db : DB) (n e p r t e2 p2 t2 : List Char)
    (now : Nat) :
    ((respUser (signup db n e p r t now).1).all fun u =>
      (List.lookup "password_hash" u).isNone) = true ∧
    ((respUser (login db e2 p2 t2)).all fun u =>
      (List.lookup "password_hash" u).isNone) = true := by
  constructor
  · by_cases hex : get_documents db "user" [("email", Value.str e)] 1 ≠ []
    · simp [signup, hex, respUser]
    · simp [signup, hex, respUser, lookup_filter_ne]
  · cases hu : get_documents db "user" [("email", Value.str e2)] 1 with
    | nil => simp [login, hu, respUser]
    | cons u rest =>
      by_cases hv : verify_password p2 (getStrD u "password_hash" []) = true
      · simp [login, hu, hv, respUser, lookup_filter_ne]
      · simp [login, hu, hv, respUser]

/-- C5: a signup whose email already exists fails with status 400 and the
detail "Email already registered", leaving the store untouched: the existence
check precedes hashing and persistence. -/
theorem signup_duplicate_email_rejected (db : DB) (n e p r t : List Char) (now : Nat)
    (h : get_documents db "user" [("email", Value.str e)] 1 ≠ []) :
    signup db n e p r t now = (.error 400 "Email already registered", db) := by
  simp [signup, h]

/-- Witness for C5 on a store already holding the email. -/
theorem signup_duplicate_email_rejected_witness :
    signup ⟨fun _ => [[("email", Value.str ['a'])]], 0⟩ ['n'] ['a'] ['p'] [] [] 7 =
      (.error 400 "Email already registered", ⟨fun _ => [[("email", Value.str ['a'])]], 0⟩) :=
  signup_duplicate_email_rejected ⟨fun _ => [[("email", Value.str ['a'])]], 0⟩
    ['n'] ['a'] ['p'] [] [] 7 (by decide)

/-- C8: a successful signup persists exactly one new user record, holding the
submitted name and email, the derived credential under `password_hash`,
`is_active = true`, and the current timestamp under `created_at`; every other
collection is untouched and the response is the new record (with `_id`, less
the hash) plus the token. -/
theorem signup_persists_one_user (db : DB) (n e p r t : List Char) (now : Nat)
    (h : get_documents db "user" [("email", Value.str e)] 1 = []) :
    (signup db n e p r t now).2.colls "user" = db.colls "user" ++
      [[("name", Value.str n), ("email", Value.str e),
        ("password_hash", Value.str (hash_password p none r)),
        ("is_active", Value.bool true), ("created_at", Value.nat now)]] ∧
    (∀ c, c ≠ "user" → (signup db n e p r t now).2.colls c = db.colls c) ∧
    (signup db n e p r t now).1 =
      .ok (([("name", Value.str n), ("email", Value.str e),
        ("password_hash", Value.str (hash_password p none r)),
        ("is_active", Value.bool true), ("created_at", Value.nat now),
        ("_id", Value.nat db.nextId)]).filter fun kv => kv.1 != "password_hash") t := by
  refine ⟨?_, fun c hc => ?_, ?_⟩
  · simp [signup, h, create_document]
  · simp [signup, h, create_document, hc]
  · simp [signup, h, create_document]

/-- Witness for C8 on the empty store. -/
theorem signup_persists_one_user_witness :
    (signup ⟨fun _ => [], 0⟩ ['n'] ['a'] ['p'] [] ['t'] 7).2.colls "user" =
      ([] : List Doc) ++
      [[("name", Value.str ['n']), ("email", Value.str ['a']),
        ("password_hash", Value.str (hash_password ['p'] none [])),
        ("is_active", Value.bool true), ("created_at", Value.nat 7)]] ∧
    (∀ c, c ≠ "user" →
      (signup ⟨fun _ => [], 0⟩ ['n'] ['a'] ['p'] [] ['t'] 7).2.colls c = []) ∧
    (signup ⟨fun _ => [], 0⟩ ['n'] ['a'] ['p'] [] ['t'] 7).1 =
      .ok (([("name", Value.str ['n']), ("email", Value.str ['a']),
        ("password_hash", Value.str (hash_password ['p'] none [])),
        ("is_active", Value.bool true), ("created_at", Value.nat 7),
        ("_id", Value.nat 0)]).filter fun kv => kv.1 != "password_hash") ['t'] :=
  signup_persists_one_user ⟨fun _ => [], 0⟩ ['n'] ['a'] ['p'] [] ['t'] 7 rfl

/-! ## Digest counting: collisions of SHA-256 exist, nonconstructively -/

/-- Big-endian numeric value of a byte list. -/
def bytesToNat : List Nat → Nat
  | [] => 0
  | b :: r => b * 256 ^ r.length + bytesToNat r

/-- Every byte emitted by the word serializer is below 256. -/
lemma wordToBytes_lt (w : Nat) : ∀ b ∈ wordToBytes w, b < 256 := by
  intro b hb
  simp only [wordToBytes, List.mem_cons, List.not_mem_nil, or_false] at hb
  rcases hb with rfl | rfl | rfl | rfl <;> exact Nat.mod_lt _ (by norm_num)

/-- Every digest byte is below 256. -/
lemma sha256Bytes_lt (m : List Nat) : ∀ b ∈ sha256Bytes m, b < 256 := by
  intro b hb
  unfold sha256Bytes digestBytes at hb
  simp only [List.mem_append] at hb
  rcases hb with ((((((hb | hb) | hb) | hb) | hb) | hb) | hb) | hb <;>
    exact wordToBytes_lt _ _ hb

/-- A digest is exactly 32 bytes. -/
lemma sha256Bytes_length (m : List Nat) : (sha256Bytes m).length = 32 := by
  simp [sha256Bytes, digestBytes, wordToBytes]

/-- The numeric value of a bounded byte list is below `256 ^ length`. -/
lemma bytesToNat_lt : ∀ l : List Nat, (∀ x ∈ l, x < 256) → bytesToNat l < 256 ^ l.length := by
  intro l
  induction l with
  | nil => intro _; simp [bytesToNat]
  | cons b r ih =>
    intro h
    have hb : b < 256 := h b (List.mem_cons_self _ _)
    have hr : bytesToNat r < 256 ^ r.length := ih fun x hx => h x (List.mem_cons_of_mem _ hx)
    have h1 : b * 256 ^ r.length + bytesToNat r < (b + 1) * 256 ^ r.length := by
      calc b * 256 ^ r.length + bytesToNat r < b * 256 ^ r.length + 256 ^ r.length :=
            Nat.add_lt_add_left hr _
        _ = (b + 1) * 256 ^ r.length := by ring
    have h2 : (b + 1) * 256 ^ r.length ≤ 256 * 256 ^ r.length :=
      Nat.mul_le_mul_right _ (by omega)
    simp only [bytesToNat, List.length_cons]
    calc b * 256 ^ r.length + bytesToNat r < 256 * 256 ^ r.length := lt_of_lt_of_le h1 h2
      _ = 256 ^ (r.length + 1) := by ring

/-- The numeric value determines a bounded byte list of known length. -/
lemma bytesToNat_inj : ∀ a b : List Nat, a.length = b.length → (∀ x ∈ a, x < 256) →
    (∀ x ∈ b, x < 256) → bytesToNat a = bytesToNat b → a = b := by
  intro a
  induction a with
  | nil =>
    intro b hlen _ _ _
    cases b with
    | nil => rfl
    | cons y s => simp at hlen
  | cons x r ih =>
    intro b hlen ha hb heq
    cases b with
    | nil => simp at hlen
    | cons y s =>
      have hls : r.length = s.length := by simpa using hlen
      have hx : x < 256 := ha x (List.mem_cons_self _ _)
      have hy : y < 256 := hb y (List.mem_cons_self _ _)
      have hr : bytesToNat r < 256 ^ r.length :=
        bytesToNat_lt r fun z hz => ha z (List.mem_cons_of_mem _ hz)
      have hs : bytesToNat s < 256 ^ s.length :=
        bytesToNat_lt s fun z hz => hb z (List.mem_cons_of_mem _ hz)
      simp only [bytesToNat, hls] at heq
      have hxy : x = y := by
        rcases Nat.lt_trichotomy x y with hlt | heq' | hlt
        · exfalso
          have : x * 256 ^ s.length + bytesToNat r < y * 256 ^ s.length + bytesToNat s := by
            calc x * 256 ^ s.length + bytesToNat r < x * 256 ^ s.length + 256 ^ s.length :=
                  Nat.add_lt_add_left (hls ▸ hr) _
              _ = (x + 1) * 256 ^ s.length := by ring
              _ ≤ y * 256 ^ s.length := Nat.mul_le_mul_right _ (by omega)
              _ ≤ y * 256 ^ s.length + bytesToNat s := Nat.le_add_right _ _
          omega
        · exact heq'
        · exfalso
          have : y * 256 ^ s.length + bytesToNat s < x * 256 ^ s.length + bytesToNat r := by
            calc y * 256 ^ s.length + bytesToNat s < y * 256 ^ s.length + 256 ^ s.length :=
                  Nat.add_lt_add_left hs _
              _ = (y + 1) * 256 ^ s.length := by ring
              _ ≤ x * 256 ^ s.length := Nat.mul_le_mul_right _ (by omega)
              _ ≤ x * 256 ^ s.length + bytesToNat r := Nat.le_add_right _ _
          omega
      subst hxy
      have hrs : bytesToNat r = bytesToNat s := by omega
      have := ih s hls (fun z hz => ha z (List.mem_cons_of_mem _ hz))
        (fun z hz => hb z (List.mem_cons_of_mem _ hz)) hrs
      rw [this]

/-- Equal digest values give equal digests. -/
lemma sha256Bytes_eq_of_val_eq {m1 m2 : List Nat}
    (h : bytesToNat (sha256Bytes m1) = bytesToNat (sha256Bytes m2)) :
    sha256Bytes m1 = sha256Bytes m2 :=
  bytesToNat_inj _ _ (by rw [sha256Bytes_length, sha256Bytes_length])
    (sha256Bytes_lt _) (sha256Bytes_lt _) h

/-- Counterexample to C6 as universally stated: by pigeonhole over the 2^256
possible digests there exist two distinct passwords whose salted digests under
some actually-drawable hex salt coincide, and the cross verification then
returns true.  No concrete such pair is known, but the universal claim is
false. -/
theorem verify_cross_password_collision :
    ∃ rnd p q : List Char, isTokenHex rnd ∧ p ≠ q ∧
      verify_password p (hash_password q none rnd) = true := by
  have hhex : isTokenHex (List.replicate 32 '0') := by decide
  have hnd : '$' ∉ List.replicate 32 '0' := dollar_not_mem_of_hex hhex.2
  obtain ⟨n, m, hnm, hfe⟩ := Finite.exists_ne_map_eq_of_infinite fun n : ℕ =>
    (⟨bytesToNat (sha256Bytes (utf8Encode (List.replicate 32 '0' ++ List.replicate n 'a'))), by
      have h1 := bytesToNat_lt _ (sha256Bytes_lt
        (utf8Encode (List.replicate 32 '0' ++ List.replicate n 'a')))
      rwa [sha256Bytes_length] at h1⟩ : Fin (256 ^ 32))
  simp only [Fin.mk.injEq] at hfe
  refine ⟨List.replicate 32 '0', List.replicate n 'a', List.replicate m 'a', hhex, ?_, ?_⟩
  · intro he
    apply hnm
    have := congrArg List.length he
    simpa using this
  · have hsha := sha256Bytes_eq_of_val_eq hfe
    have hhexeq : sha256HexOfString (List.replicate 32 '0' ++ List.replicate n 'a') =
        sha256HexOfString (List.replicate 32 '0' ++ List.replicate m 'a') := by
      unfold sha256HexOfString
      rw [hsha]
    rw [hash_password_none, verify_password_eq _ _ _ hnd
      (dollar_not_mem_sha256Hex (List.replicate 32 '0' ++ List.replicate m 'a')), hhexeq]
    exact beq_self_eq_true _

/-- C6 amended: for any drawable hex salt, cross verification of `p` against
the credential derived from `q` succeeds exactly when SHA-256 collides on
`salt ++ p` and `salt ++ q`; in particular it is false whenever the two salted
digests differ (and no concrete collision is known). -/
theorem verify_cross_password_iff (p q rnd : List Char) (h : isTokenHex rnd) :
    verify_password p (hash_password q none rnd) = true ↔
      sha256HexOfString (rnd ++ p) = sha256HexOfString (rnd ++ q) := by
  rw [hash_password_none, verify_password_eq _ _ _ (dollar_not_mem_of_hex h.2)
    (dollar_not_mem_sha256Hex (rnd ++ q))]
  exact beq_iff_eq

/-- Witness for the amended C6 at concrete distinct passwords. -/
theorem verify_cross_password_iff_witness :
    verify_password ['a'] (hash_password ['b'] none (List.replicate 32 '0')) = true ↔
      sha256HexOfString (List.replicate 32 '0' ++ ['a']) =
        sha256HexOfString (List.replicate 32 '0' ++ ['b']) :=
  verify_cross_password_iff ['a'] ['b'] (List.replicate 32 '0') (by decide)
